import Mathlib

/-!
Verification of the est_alan_scheduler task registry.

The definitions below are a shallow embedding of
`est_alan_scheduler/task.py` and `est_alan_scheduler/task_registry.py`.

Modelling conventions:
* Naive `datetime` values are modelled as natural numbers counting
  microseconds on a linear timeline in which every calendar day has
  86400 seconds; this matches naive `datetime` ordering, subtraction,
  `date()` and `replace(hour=.., minute=.., second=0, microsecond=0)`
  exactly (a naive datetime is an ordinal day count plus a time of day).
* `timedelta` values are integers counting microseconds.
* Python exceptions are modelled as values: fallible operations return
  a pair of the post-call state and an `Except` result, and
  `_should_run` (which can raise while parsing an `at` field) returns
  `Option Bool`, `none` standing for a raised exception.
* Strings are Lean strings (lists of characters).  Digit handling is
  the ASCII one: CPython compiles `%H:%M` without `re.ASCII` and `int`
  also parses non-ASCII Unicode decimal digits, so the parsing and
  validation models below are stated for, and faithful on, strings of
  ASCII characters only; theorems about them carry that scope.
* The non-deterministic clock reads of phase 2 (`datetime.now()` at the
  completion of each task) are supplied by an oracle mapping a task id
  to the clock value observed when that task completes.
-/

namespace EstAlan

/-- Microseconds per calendar day. -/
def usPerDay : Nat := 86400000000

/-- Model of `datetime.date()`: the day index of an instant. -/
def dateOf (t : Nat) : Nat := t / usPerDay

/-- Model of `now.replace(hour=hh, minute=mm, second=0, microsecond=0)`. -/
def replaceHM (t hh mm : Nat) : Nat :=
  dateOf t * usPerDay + (hh * 60 + mm) * 60000000

/-- The keys allowed in an `every` mapping (`Task.validate_every_keys`). -/
inductive EveryUnit where
  | days
  | seconds
  | microseconds
  | milliseconds
  | minutes
  | hours
  | weeks
  deriving DecidableEq, Repr

/-- Microseconds denoted by one count of the given unit. -/
def unitUs : EveryUnit → Int
  | .days => 86400000000
  | .seconds => 1000000
  | .microseconds => 1
  | .milliseconds => 1000
  | .minutes => 60000000
  | .hours => 3600000000
  | .weeks => 604800000000

/-- Model of `timedelta(**task.every)`: the duration denoted by an
`every` mapping, in microseconds. -/
def intervalUs (e : List (EveryUnit × Int)) : Int :=
  e.foldl (fun acc kv => acc + kv.2 * unitUs kv.1) 0

/-- Model of the constructor call `timedelta(**task.every)`: the exact
total in microseconds when the floor-normalized day count fits in
±999999999, and `none` for the `OverflowError` the constructor raises
otherwise (the day count fits exactly when the total lies in
[-999999999 days, 1000000000 days)). -/
def timedelta? (e : List (EveryUnit × Int)) : Option Int :=
  if -999999999 * 86400000000 ≤ intervalUs e ∧ intervalUs e < 1000000000 * 86400000000 then
    some (intervalUs e)
  else
    none

/-- A small universe of Python values, enough for task results and the
value `None` returned by a Python function without a return statement. -/
inductive PyObj where
  | none
  | bool (b : Bool)
  | int (n : Int)
  | str (s : String)
  deriving DecidableEq, Repr

/-- A raised Python exception: its type name and its message. -/
structure PyExc where
  name : String
  msg : String
  deriving DecidableEq, Repr

/-- Model of the f-string at task_registry.py line 114, which renders an
exception as type name, colon, space, message. -/
def excDesc (e : PyExc) : String := e.name ++ ": " ++ e.msg

/-- ASCII single quote, used by the model of `repr` on strings. -/
def pyQuote : Char := Char.ofNat 39

/-- Model of `repr` on the values of `PyObj`.  For strings it always
uses single quotes and no escaping, which matches Python's `repr` on
strings containing neither quotes nor backslashes; the escaping rules
beyond that are not modelled. -/
def pyRepr : PyObj → String
  | .none => "None"
  | .bool true => "True"
  | .bool false => "False"
  | .int n => toString n
  | .str s => String.singleton pyQuote ++ s ++ String.singleton pyQuote

/-- `TaskStatus` from task.py. -/
inductive TaskStatus where
  | pending
  | running
  | success
  | failed
  deriving DecidableEq, Repr

/-- One record of the `history` list: the dict built at
task_registry.py lines 119-126 (and 168-170). -/
structure HistoryEntry where
  run_at : Nat
  status : TaskStatus
  result : Option String
  error : Option String
  deriving DecidableEq, Repr

/-- Positional arguments of a task. -/
abbrev Args := List PyObj

/-- Keyword arguments of a task: an ordered association list, which is
how a Python dict with string keys behaves. -/
abbrev KwArgs := List (String × PyObj)

/-- The `Task` pydantic model from task.py.  The work function takes
the positional arguments and the merged keyword arguments and either
returns a value or raises. -/
structure Task where
  id : String
  tags : List String := []
  every : Option (List (EveryUnit × Int)) := none
  «at» : Option String := none
  run_at : Option Nat := none
  func : Args → KwArgs → Except PyExc PyObj
  args : Args := []
  kwargs : KwArgs := []
  depends_on : List String := []
  status : TaskStatus := .pending
  last_success_at : Option Nat := none
  last_run_at : Option Nat := none
  result : PyObj := .none
  error_message : Option String := none
  history : List HistoryEntry := []

/-- Model of Python `str.split(sep)` for a one-character separator,
over the character list of the string (empty pieces are kept). -/
def splitOnChar (c : Char) : List Char → List (List Char)
  | [] => [[]]
  | x :: xs =>
    let r := splitOnChar c xs
    if x = c then [] :: r
    else
      match r with
      | [] => [[x]]
      | y :: ys => (x :: y) :: ys

/-- The value of an ASCII decimal digit character. -/
def digitVal? (c : Char) : Option Nat :=
  if c.isDigit then some (c.toNat - 48) else none

/-- Accumulator loop of `decNat?`. -/
def decNatAux : List Char → Nat → Option Nat
  | [], acc => some acc
  | c :: cs, acc =>
    match digitVal? c with
    | some d => decNatAux cs (acc * 10 + d)
    | none => none

/-- Model of Python `int(s)` on unsigned strings of ASCII decimal
digits; any other ASCII shape is a raised `ValueError`, modelled as
`none`.  Python `int` also accepts non-ASCII Unicode decimal digits,
signs, surrounding whitespace and inner underscores, none of which
occur in the ASCII strings this development reasons about. -/
def decNat? (l : List Char) : Option Nat :=
  match l with
  | [] => none
  | _ => decNatAux l 0

/-- Model of `hh, mm = map(int, task.at.split(":"))` at
task_registry.py line 71; `none` models a raised exception. -/
def parseAt (s : String) : Option (Nat × Nat) :=
  match splitOnChar ':' s.data with
  | [h, m] =>
    match decNat? h, decNat? m with
    | some hv, some mv => some (hv, mv)
    | _, _ => none
  | _ => none

/-- Hour part of the `strptime` format `%H`: the regular expression
`2[0-3]|[0-1]\d|\d`, here applied to the digit values of one or two
characters. -/
def hourOK (l : List Char) : Bool :=
  match l with
  | [c] => (digitVal? c).isSome
  | [c1, c2] =>
    match digitVal? c1, digitVal? c2 with
    | some d1, some d2 => (decide (d1 = 2) && decide (d2 ≤ 3)) || decide (d1 ≤ 1)
    | _, _ => false
  | _ => false

/-- Minute part of the `strptime` format `%M`: the regular expression
`[0-5]\d|\d`. -/
def minuteOK (l : List Char) : Bool :=
  match l with
  | [c] => (digitVal? c).isSome
  | [c1, c2] =>
    match digitVal? c1, digitVal? c2 with
    | some d1, some _ => decide (d1 ≤ 5)
    | _, _ => false
  | _ => false

/-- Model of `Task.validate_at_format` (task.py lines 50-58) on
strings of ASCII characters: the set of such strings on which
`datetime.strptime(v, "%H:%M")` succeeds, namely a full-string match
of `(2[0-3]|[0-1]\d|\d):([0-5]\d|\d)`, the regular expression CPython
compiles for that format.  CPython compiles it without `re.ASCII`, so
over arbitrary strings `\d` also matches non-ASCII Unicode decimal
digits (strptime accepts the string ٧:30, for example); those strings
are outside this model, whose theorems are scoped to ASCII inputs.
Since the hour and minute languages contain no colon, a full match is
exactly a two-piece colon split whose pieces match `%H` and `%M`. -/
def validate_at_format (v : String) : Bool :=
  match splitOnChar ':' v.data with
  | [h, m] => hourOK h && minuteOK m
  | _ => false

/-- Lookup of a task by id: `self.store.get(task_id)` on an
insertion-ordered dict keyed by `task.id`. -/
def findTask : List Task → String → Option Task
  | [], _ => none
  | t :: ts, i => if t.id = i then some t else findTask ts i

/-- The key list of the store, in insertion order. -/
def idsOf (store : List Task) : List String := store.map Task.id

/-- Model of `self.store[task_id] = new_task` for a key that is
already present: replace in place, keeping the position. -/
def updateById : List Task → String → Task → List Task
  | [], _, _ => []
  | t :: ts, i, t2 => if t.id = i then t2 :: ts else t :: updateById ts i t2

/-- Model of `del self.store[task_id]` for a present key. -/
def eraseById : List Task → String → List Task
  | [], _ => []
  | t :: ts, i => if t.id = i then ts else t :: eraseById ts i

/-- Model of `sum(opt is not None for opt in (task.every, task.at,
task.run_at))` from task_registry.py lines 19 and 29. -/
def schedCount (t : Task) : Nat :=
  (if t.every.isSome then 1 else 0) +
    (if t.«at».isSome then 1 else 0) +
    (if t.run_at.isSome then 1 else 0)

/-- The registry state: the `store` dict, as an insertion-ordered list
of tasks keyed by their `id` field. -/
structure TaskRegistry where
  store : List Task

/-- `TaskRegistry.register`.  The returned pair is the state of the
registry when the call finishes together with the outcome: the stored
task on success, the raised `ValueError` message otherwise. -/
def TaskRegistry.register (reg : TaskRegistry) (task : Task) :
    TaskRegistry × Except String Task :=
  if schedCount task ≠ 1 then
    (reg, .error "Task must specify exactly one of every / at / run_at schedule options")
  else if (findTask reg.store task.id).isSome then
    (reg, .error ("Task with id already registered: " ++ task.id))
  else
    ({ store := reg.store ++ [task] }, .ok task)

/-- `Task.update` (task.py lines 73-88): copy the tags, the schedule
options and the work definition from `task`, keep the runtime state. -/
def Task.update (self task : Task) : Task :=
  { self with
    tags := task.tags
    every := task.every
    «at» := task.«at»
    run_at := task.run_at
    func := task.func
    args := task.args
    kwargs := task.kwargs
    depends_on := task.depends_on }

/-- `TaskRegistry.update`: validate the schedule cardinality, then
mutate the stored task with the same id in place; a missing id is a
raised `KeyError`. -/
def TaskRegistry.update (reg : TaskRegistry) (task : Task) :
    TaskRegistry × Except String Unit :=
  if schedCount task ≠ 1 then
    (reg, .error "Task must specify exactly one of every / at / run_at schedule options")
  else
    match findTask reg.store task.id with
    | some stored =>
      ({ store := updateById reg.store task.id (stored.update task) }, .ok ())
    | none => (reg, .error ("KeyError: " ++ task.id))

/-- `TaskRegistry.delete`: remove the task when the id is present.
The method body has no return statement, so every call returns the
Python value `None`, modelled as `PyObj.none`. -/
def TaskRegistry.delete (reg : TaskRegistry) (task_id : String) :
    TaskRegistry × PyObj :=
  if (findTask reg.store task_id).isSome then
    ({ store := eraseById reg.store task_id }, PyObj.none)
  else
    (reg, PyObj.none)

/-- `TaskRegistry._deps_ready`: every id in `depends_on` names a
stored task whose `last_success_at` is not `None`. -/
def deps_ready (store : List Task) (task : Task) : Bool :=
  task.depends_on.all fun dep_id =>
    match findTask store dep_id with
    | none => false
    | some dep_task => dep_task.last_success_at.isSome

/-- `TaskRegistry._should_run` (task_registry.py lines 55-97).  The
result `none` models a raised exception: an unparseable `at` string
(`int` raising), an out-of-range hour or minute (`now.replace` raising
`ValueError`), or an `every` mapping outside the `timedelta` range
(line 85 raising `OverflowError`, before `last_run_at` is looked at). -/
def should_run (task : Task) (now : Nat) : Option Bool :=
  match task.run_at with
  | some r => some (task.last_run_at.isNone && decide (r ≤ now))
  | none =>
    match task.«at» with
    | some s =>
      match parseAt s with
      | none => none
      | some (hh, mm) =>
        if 24 ≤ hh ∨ 60 ≤ mm then none
        else
          some (decide (replaceHM now hh mm ≤ now) &&
            !(match task.last_run_at with
              | some lr => decide (dateOf lr = dateOf now)
              | none => false))
    | none =>
      match task.every with
      | some e =>
        match timedelta? e with
        | none => none
        | some interval =>
          some (match task.last_run_at with
            | none => true
            | some lr => decide (interval ≤ (now : Int) - (lr : Int)))
      | none => some false

/-- Lookup in a keyword-argument dict. -/
def kwLookup : KwArgs → String → Option PyObj
  | [], _ => none
  | kv :: rest, key => if kv.1 = key then some kv.2 else kwLookup rest key

/-- Model of the dict merge `{**task.kwargs, **dep_kwargs}`: the keys
of the first dict in order, overridden where the second dict has the
same key, then the new keys of the second dict in order. -/
def mergeKw (base extra : KwArgs) : KwArgs :=
  base.map (fun kv => (kv.1, (kwLookup extra kv.1).getD kv.2)) ++
    extra.filter fun kv => (kwLookup base kv.1).isNone

/-- The call `task.func(*task.args, **{**task.kwargs, **dep_kwargs})`
at task_registry.py line 108. -/
def callFunc (task : Task) (dep_kwargs : KwArgs) : Except PyExc PyObj :=
  task.func task.args (mergeKw task.kwargs dep_kwargs)

/-- The try/except body of `TaskRegistry._execute_task_logic` (lines
106-115): on normal return set the result, the Success status, the
completion timestamp and clear the error; on a raise set the Failed
status and the error text, leaving the rest in place. -/
def applyOutcome (task : Task) (dep_kwargs : KwArgs) (completion_time : Nat) : Task :=
  match callFunc task dep_kwargs with
  | .ok v =>
    { task with
      result := v
      status := .success
      last_success_at := some completion_time
      error_message := none }
  | .error exc =>
    { task with
      status := .failed
      error_message := some (excDesc exc) }

/-- `TaskRegistry._execute_task_logic` (lines 100-127): the try/except
body followed by the finally block, which appends one history record.
`current_run_time` is the phase-1 snapshot passed in by `tick`;
`completion_time` is the value `datetime.now()` reads right after the
work returns. -/
def execute_task_logic (task : Task) (dep_kwargs : KwArgs)
    (current_run_time completion_time : Nat) : Task :=
  let afterTry : Task := applyOutcome task dep_kwargs completion_time
  { afterTry with
    history := afterTry.history ++
      [{ run_at := current_run_time
         status := afterTry.status
         result := if afterTry.status = .success then some (pyRepr afterTry.result) else none
         error := if afterTry.status = .failed then afterTry.error_message else none }] }

/-- One element of `tasks_to_execute_info`: the task as mutated by
phase 1, the collected dependency results, and the snapshot time. -/
structure QItem where
  task : Task
  dep_kwargs : KwArgs
  run_time : Nat

/-- Python truthiness of an optional string: `None` and the empty
string are falsy. -/
def strTruthy : Option String → Bool
  | some s => decide (s ≠ "")
  | none => false

/-- The loop at task_registry.py lines 156-160: collect one keyword
argument per dependency, named by prepending the marker used by the
source; a missing dependency is a `KeyError` carrying the first
missing id. -/
def collectDeps (store : List Task) : List String → Except String KwArgs
  | [] => .ok []
  | dep_id :: rest =>
    match findTask store dep_id with
    | none => .error dep_id
    | some dep_task =>
      match collectDeps store rest with
      | .error i => .error i
      | .ok kw => .ok (("dep_" ++ dep_id, dep_task.result) :: kw)

/-- The error text of the defensive branch, the f-string at line 166:
`str` of a `KeyError` is the `repr` of the missing key. -/
def depMissingMsg (dep_id : String) : String :=
  "Dependency data not found during tick: " ++
    String.singleton pyQuote ++ dep_id ++ String.singleton pyQuote

/-- The mutation block at lines 173-177: mark the selected task
running, stamp `last_run_at` with the snapshot, and clear a stale
error message (the condition at line 176 reduces to the truthiness of
`error_message`, because the status was just set to Running). -/
def markRunning (task : Task) (now : Nat) : Task :=
  { task with
    status := .running
    last_run_at := some now
    error_message := if strTruthy task.error_message then none else task.error_message }

/-- The defensive block at lines 161-171: a dependency disappeared
between the gating check and result collection. -/
def markDepFailed (task : Task) (now : Nat) (dep_id : String) : Task :=
  { task with
    status := .failed
    error_message := some (depMissingMsg dep_id)
    last_run_at := some now
    history := task.history ++
      [{ run_at := now, status := .failed, result := none,
         error := some (depMissingMsg dep_id) }] }

/-- One iteration of the phase-1 loop body (lines 138-179) for one
snapshotted key: skip a vanished key, skip a Running task, evaluate
`_should_run` (whose raise, `none`, aborts the tick) and `_deps_ready`,
and either select the task (returning the updated store and the queued
item) or mark it failed defensively when a dependency result is
missing.  The outer `Option` is the raised exception; the inner
`Option QItem` tells whether this key queued a task. -/
def tickStep (now : Nat) (store : List Task) (task_id : String) :
    Option (List Task × Option QItem) :=
  match findTask store task_id with
  | none => some (store, none)
  | some task =>
    if task.status = .running then some (store, none)
    else
      match should_run task now with
      | none => none
      | some cond =>
        if cond && deps_ready store task then
          match collectDeps store task.depends_on with
          | .ok dep_kwargs =>
            some (updateById store task_id (markRunning task now),
              some ⟨markRunning task now, dep_kwargs, now⟩)
          | .error dep_id =>
            some (updateById store task_id (markDepFailed task now dep_id), none)
        else some (store, none)

/-- Phase 1 of `tick` (lines 137-188): run `tickStep` over the
snapshotted key list, threading the evolving store and collecting the
queued items in iteration order.  The result `none` models an
exception raised inside phase 1 (only `_should_run` can raise there). -/
def tickPhase1 (now : Nat) : List String → List Task → Option (List Task × List QItem)
  | [], store => some (store, [])
  | task_id :: rest, store =>
    match tickStep now store task_id with
    | none => none
    | some (store1, oitem) =>
      match tickPhase1 now rest store1 with
      | none => none
      | some (store2, queue) =>
        some (store2,
          match oitem with
          | some item => item :: queue
          | none => queue)

/-- Phase 2 of `tick` (lines 190-198): run the queued tasks in order,
writing the outcome of each back onto the stored task. -/
def tickPhase2 (ct : String → Nat) (store : List Task) (queue : List QItem) : List Task :=
  queue.foldl
    (fun s item =>
      updateById s item.task.id
        (execute_task_logic item.task item.dep_kwargs item.run_time (ct item.task.id)))
    store

/-- `TaskRegistry.tick`: snapshot `now` once, run phase 1 over the
snapshotted key list, then phase 2.  `ct` is the oracle for the
completion-time clock reads of phase 2. -/
def TaskRegistry.tick (reg : TaskRegistry) (now : Nat) (ct : String → Nat) :
    Option TaskRegistry :=
  match tickPhase1 now (idsOf reg.store) reg.store with
  | none => none
  | some (store1, queue) => some ⟨tickPhase2 ct store1 queue⟩

/-- The shape the specification claims for an accepted `at` string:
exactly two digits 00-23, a colon, exactly two digits 00-59.  This
definition follows the words of the claim, for comparison with
`validate_at_format`, which embeds the source. -/
def specTwoDigitShape (v : String) : Bool :=
  match v.data with
  | [h1, h2, c, m1, m2] =>
    decide (c = ':') && h1.isDigit && h2.isDigit && m1.isDigit && m2.isDigit &&
      decide ((h1.toNat - 48) * 10 + (h2.toNat - 48) ≤ 23) &&
      decide ((m1.toNat - 48) * 10 + (m2.toNat - 48) ≤ 59)
  | _ => false

/-- The corrected acceptance condition for an `at` string: a one or
two digit hour of value at most 23, a colon, a one or two digit minute
of value at most 59. -/
def amendedAtShape (v : String) : Prop :=
  ∃ h m : List Char, v.data = h ++ ':' :: m ∧
    (h.length = 1 ∨ h.length = 2) ∧ (m.length = 1 ∨ m.length = 2) ∧
    (∃ hv, decNat? h = some hv ∧ hv ≤ 23) ∧
    (∃ mv, decNat? m = some mv ∧ mv ≤ 59)

/-- Rejoin the pieces of a separator split, interleaving the
separator; inverse of `splitOnChar`, used to reason about it. -/
def joinSep (c : Char) : List (List Char) → List Char
  | [] => []
  | [p] => p
  | p :: ps => p ++ c :: joinSep c ps

/-- A work function that returns the Python int 42. -/
def okFunc : Args → KwArgs → Except PyExc PyObj := fun _ _ => .ok (.int 42)

/-- A work function that raises. -/
def boomFunc : Args → KwArgs → Except PyExc PyObj := fun _ _ => .error ⟨"ValueError", "boom"⟩

/-- A one-shot task used by concrete instances. -/
def wTaskOne : Task := { id := "one", run_at := some 50, func := okFunc }

/-- An empty registry used by concrete instances. -/
def wRegEmpty : TaskRegistry := ⟨[]⟩

/-- An interval task used by concrete instances. -/
def wTaskEvery : Task :=
  { id := "ev", every := some [(.seconds, 2)], func := okFunc, last_run_at := some 1 }

/-- A daily task used by concrete instances. -/
def wTaskAt : Task := { id := "d", «at» := some "07:30", func := okFunc }

/-- A succeeded dependency used by concrete instances. -/
def wTaskDep : Task :=
  { id := "A", every := some [(.seconds, 1)], func := okFunc, last_success_at := some 5 }

/-- A one-shot failing task depending on `wTaskDep`. -/
def wTaskB : Task := { id := "B", run_at := some 10, func := boomFunc, depends_on := ["A"] }

/-- A registry holding `wTaskDep` and `wTaskB`. -/
def wReg57 : TaskRegistry := ⟨[wTaskDep, wTaskB]⟩

/-- A completion-clock oracle used by concrete instances. -/
def wct : String → Nat := fun _ => 777

/-- A stored task with nontrivial runtime state, for the update instance. -/
def wStored : Task :=
  { id := "u", every := some [(.minutes, 1)], func := okFunc, status := .failed,
    last_run_at := some 3, last_success_at := some 2, result := .int 7,
    error_message := some "E: x", history := [⟨3, .failed, none, some "E: x"⟩] }

/-- A replacement task for the update instance. -/
def wRepl : Task :=
  { id := "u", tags := ["t"], run_at := some 9, func := boomFunc,
    args := [.int 1], kwargs := [("k", .int 2)], depends_on := ["A"] }

/-- A registry holding `wStored`. -/
def wReg8 : TaskRegistry := ⟨[wStored]⟩

/-- A registry holding `wTaskOne`, for the delete instance. -/
def wReg9 : TaskRegistry := ⟨[wTaskOne]⟩

/-- A task whose work succeeds, for the execution instance. -/
def wTask6 : Task := { id := "six", run_at := some 0, func := okFunc }

/-- An interval task whose mapping overflows `timedelta`: pydantic
and register accept it, but `_should_run` raises on it. -/
def wTaskHuge : Task := { id := "big", every := some [(.days, 1000000000)], func := okFunc }

/-- The value of phase 1 on the concrete registry `wReg57` at time
100, used to instantiate the tick theorem on a concrete input. -/
def w7res : List Task × List QItem :=
  match tickPhase1 100 (idsOf wReg57.store) wReg57.store with
  | some p => p
  | none => ([], [])

/-! ## Theorems -/

/-- C1: register succeeds with the task appended and returned exactly
when the schedule cardinality is one and the id is fresh; otherwise it
raises and the registry is unchanged. -/
theorem c1_register (reg : TaskRegistry) (t : Task) :
    (reg.register t = ({ store := reg.store ++ [t] }, Except.ok t) ↔
      (schedCount t = 1 ∧ findTask reg.store t.id = none)) ∧
    ((∃ msg, reg.register t = (reg, Except.error msg)) ↔
      ¬ (schedCount t = 1 ∧ findTask reg.store t.id = none)) := by
  unfold TaskRegistry.register
  by_cases h1 : schedCount t = 1
  · rw [if_neg (by simp [h1])]
    by_cases h2 : findTask reg.store t.id = none
    · rw [if_neg (by simp [h2])]
      simp [h1, h2, Prod.ext_iff]
    · rw [if_pos (by simp [Option.isSome_iff_ne_none, h2])]
      simp [h1, h2, Prod.ext_iff]
  · rw [if_pos (by simp [h1])]
    simp [h1, Prod.ext_iff]

/-- C2: a one-shot task is eligible exactly when it has never been
attempted and its due time has passed; any recorded attempt makes it
ineligible forever. -/
theorem c2_run_at_once (t : Task) (now r : Nat) (h : t.run_at = some r) :
    (should_run t now = some true ↔ (t.last_run_at = none ∧ r ≤ now)) ∧
    (∀ lr, t.last_run_at = some lr → should_run t now = some false) := by
  unfold should_run
  rw [h]
  constructor
  · cases hl : t.last_run_at <;> simp [hl]
  · intro lr hl
    simp [hl]

/-- C2 witness. -/
theorem c2_witness :
    wTaskOne.run_at = some 50 ∧
      ((should_run wTaskOne 100 = some true ↔ (wTaskOne.last_run_at = none ∧ 50 ≤ 100)) ∧
        (∀ lr, wTaskOne.last_run_at = some lr → should_run wTaskOne 100 = some false)) :=
  ⟨rfl, c2_run_at_once wTaskOne 100 50 rfl⟩

/-- C3 counterexample: an interval task whose mapping overflows
`timedelta`, never attempted, is constructible and registrable, yet
`_should_run` raises `OverflowError` at line 85 instead of returning
true as the claim demands for a never-attempted interval task. -/
theorem c3_counterexample :
    wTaskHuge.every = some [(.days, 1000000000)] ∧ wTaskHuge.last_run_at = none ∧
      schedCount wTaskHuge = 1 ∧
      should_run wTaskHuge 0 = none ∧ ¬ should_run wTaskHuge 0 = some true := by
  decide

/-- C3 (amended): when the mapping is within the `timedelta` range, an
interval task is eligible exactly when it was never attempted or the
configured duration has elapsed since the last attempt, equality
included; a mapping outside the range makes `_should_run` raise
`OverflowError`, before `last_run_at` is looked at; the gate never
reads `last_success_at` or the status. -/
theorem c3_every_attempt_gate (t : Task) (now : Nat) (e : List (EveryUnit × Int))
    (h1 : t.run_at = none) (h2 : t.«at» = none) (h3 : t.every = some e) :
    (∀ iv, timedelta? e = some iv →
      (should_run t now = some true ↔
        (t.last_run_at = none ∨
          ∃ lr, t.last_run_at = some lr ∧ iv ≤ (now : Int) - (lr : Int)))) ∧
    (timedelta? e = none → should_run t now = none) ∧
    (∀ x, should_run { t with last_success_at := x } now = should_run t now) ∧
    (∀ st, should_run { t with status := st } now = should_run t now) := by
  refine ⟨?_, ?_, fun x => rfl, fun st => rfl⟩
  · intro iv hiv
    unfold should_run
    rw [h1, h2, h3]
    simp only [hiv]
    cases hl : t.last_run_at <;> simp [hl]
  · intro hnone
    unfold should_run
    rw [h1, h2, h3]
    simp only [hnone]

/-- C3 witness. -/
theorem c3_witness :
    wTaskEvery.run_at = none ∧ wTaskEvery.«at» = none ∧
      wTaskEvery.every = some [(.seconds, 2)] ∧
      timedelta? [(.seconds, 2)] = some 2000000 ∧
      ((should_run wTaskEvery 5 = some true ↔
        (wTaskEvery.last_run_at = none ∨
          ∃ lr, wTaskEvery.last_run_at = some lr ∧
            (2000000 : Int) ≤ (5 : Int) - (lr : Int))) ∧
      (∀ x, should_run { wTaskEvery with last_success_at := x } 5 = should_run wTaskEvery 5) ∧
      (∀ st, should_run { wTaskEvery with status := st } 5 = should_run wTaskEvery 5)) :=
  ⟨rfl, rfl, rfl, by decide,
    (c3_every_attempt_gate wTaskEvery 5 [(.seconds, 2)] rfl rfl rfl).1 2000000 (by decide),
    (c3_every_attempt_gate wTaskEvery 5 [(.seconds, 2)] rfl rfl rfl).2.2.1,
    (c3_every_attempt_gate wTaskEvery 5 [(.seconds, 2)] rfl rfl rfl).2.2.2⟩

/-- Bounds on the code point of an ASCII digit. -/
theorem isDigit_toNat_bounds (c : Char) (h : c.isDigit = true) :
    48 ≤ c.toNat ∧ c.toNat ≤ 57 := by
  simp [Char.isDigit] at h
  obtain ⟨h1, h2⟩ := h
  exact ⟨UInt32.le_toNat_of_le (by decide) h1, UInt32.toNat_le_of_le (by decide) h2⟩

/-- A digit value is at most nine. -/
theorem digitVal?_le (c : Char) (d : Nat) (h : digitVal? c = some d) : d ≤ 9 := by
  unfold digitVal? at h
  split at h
  · rename_i hd
    cases h
    have := isDigit_toNat_bounds c hd
    omega
  · cases h

/-- A character with a digit value is a digit. -/
theorem digitVal?_isDigit (c : Char) (d : Nat) (h : digitVal? c = some d) :
    c.isDigit = true := by
  unfold digitVal? at h
  split at h
  · assumption
  · cases h

/-- Every character consumed by `decNatAux` is a digit. -/
theorem decNatAux_digits : ∀ (l : List Char) (acc n : Nat),
    decNatAux l acc = some n → ∀ c ∈ l, c.isDigit = true := by
  intro l
  induction l with
  | nil =>
    intro acc n _ c hc
    cases hc
  | cons x xs ih =>
    intro acc n h c hc
    unfold decNatAux at h
    cases hd : digitVal? x with
    | none => rw [hd] at h; cases h
    | some d =>
      rw [hd] at h
      rcases List.mem_cons.mp hc with rfl | hc
      · exact digitVal?_isDigit c d hd
      · exact ih _ _ h c hc

/-- Every character of a parsed decimal string is a digit. -/
theorem decNat?_digits (l : List Char) (n : Nat) (h : decNat? l = some n) :
    ∀ c ∈ l, c.isDigit = true := by
  unfold decNat? at h
  cases l with
  | nil => cases h
  | cons x xs => exact decNatAux_digits (x :: xs) 0 n h

/-- Decimal parse of a single character. -/
theorem decNat?_single (c : Char) : decNat? [c] = digitVal? c := by
  cases hd : digitVal? c <;> simp [decNat?, decNatAux, hd]

/-- Decimal parse of two digit characters. -/
theorem decNat?_pair (c1 c2 : Char) (d1 d2 : Nat)
    (h1 : digitVal? c1 = some d1) (h2 : digitVal? c2 = some d2) :
    decNat? [c1, c2] = some (d1 * 10 + d2) := by
  simp [decNat?, decNatAux, h1, h2]

/-- Decimal parse fails when the first character is not a digit. -/
theorem decNat?_pair_none_left (c1 c2 : Char) (h : digitVal? c1 = none) :
    decNat? [c1, c2] = none := by
  simp [decNat?, decNatAux, h]

/-- Decimal parse fails when the second character is not a digit. -/
theorem decNat?_pair_none_right (c1 c2 : Char) (d1 : Nat)
    (h1 : digitVal? c1 = some d1) (h : digitVal? c2 = none) :
    decNat? [c1, c2] = none := by
  simp [decNat?, decNatAux, h1, h]

/-- The hour language of `%H` is exactly the one or two digit numbers
up to 23. -/
theorem hourOK_iff (l : List Char) :
    hourOK l = true ↔
      ((l.length = 1 ∨ l.length = 2) ∧ ∃ hv, decNat? l = some hv ∧ hv ≤ 23) := by
  match l with
  | [] => simp [hourOK, decNat?]
  | [c] =>
    cases hd : digitVal? c with
    | some d =>
      have hle := digitVal?_le c d hd
      simp [hourOK, decNat?_single, hd]
      omega
    | none => simp [hourOK, decNat?_single, hd]
  | [c1, c2] =>
    cases h1 : digitVal? c1 with
    | none => simp [hourOK, h1, decNat?_pair_none_left c1 c2 h1]
    | some d1 =>
      cases h2 : digitVal? c2 with
      | none => simp [hourOK, h1, h2, decNat?_pair_none_right c1 c2 d1 h1 h2]
      | some d2 =>
        have b1 := digitVal?_le c1 d1 h1
        have b2 := digitVal?_le c2 d2 h2
        simp [hourOK, h1, h2, decNat?_pair c1 c2 d1 d2 h1 h2]
        omega
  | c1 :: c2 :: c3 :: rest =>
    simp [hourOK, List.length]

/-- The minute language of `%M` is exactly the one or two digit
numbers up to 59. -/
theorem minuteOK_iff (l : List Char) :
    minuteOK l = true ↔
      ((l.length = 1 ∨ l.length = 2) ∧ ∃ mv, decNat? l = some mv ∧ mv ≤ 59) := by
  match l with
  | [] => simp [minuteOK, decNat?]
  | [c] =>
    cases hd : digitVal? c with
    | some d =>
      have hle := digitVal?_le c d hd
      simp [minuteOK, decNat?_single, hd]
      omega
    | none => simp [minuteOK, decNat?_single, hd]
  | [c1, c2] =>
    cases h1 : digitVal? c1 with
    | none => simp [minuteOK, h1, decNat?_pair_none_left c1 c2 h1]
    | some d1 =>
      cases h2 : digitVal? c2 with
      | none => simp [minuteOK, h1, h2, decNat?_pair_none_right c1 c2 d1 h1 h2]
      | some d2 =>
        have b1 := digitVal?_le c1 d1 h1
        have b2 := digitVal?_le c2 d2 h2
        simp [minuteOK, h1, h2, decNat?_pair c1 c2 d1 d2 h1 h2]
        omega
  | c1 :: c2 :: c3 :: rest =>
    simp [minuteOK, List.length]

/-- Unfolding lemma for `splitOnChar` on a cons cell. -/
theorem splitOnChar_cons (c x : Char) (xs : List Char) :
    splitOnChar c (x :: xs) =
      if x = c then [] :: splitOnChar c xs
      else
        match splitOnChar c xs with
        | [] => [[x]]
        | y :: ys => (x :: y) :: ys := rfl

/-- A separator split never returns an empty piece list. -/
theorem splitOnChar_ne_nil (c : Char) : ∀ l, splitOnChar c l ≠ [] := by
  intro l
  induction l with
  | nil => simp [splitOnChar]
  | cons x xs ih =>
    rw [splitOnChar_cons]
    split
    · simp
    · cases hr : splitOnChar c xs with
      | nil => simp
      | cons y ys => simp

/-- Rejoining a split gives back the original list. -/
theorem joinSep_splitOnChar (c : Char) : ∀ l, joinSep c (splitOnChar c l) = l := by
  intro l
  induction l with
  | nil => rfl
  | cons x xs ih =>
    by_cases hx : x = c
    · rw [splitOnChar_cons, if_pos hx]
      cases hr : splitOnChar c xs with
      | nil => exact absurd hr (splitOnChar_ne_nil c xs)
      | cons y ys =>
        show joinSep c ([] :: y :: ys) = x :: xs
        rw [hr] at ih
        simp [joinSep, ih, hx]
    · rw [splitOnChar_cons, if_neg hx]
      cases hr : splitOnChar c xs with
      | nil => exact absurd hr (splitOnChar_ne_nil c xs)
      | cons y ys =>
        rw [hr] at ih
        cases ys with
        | nil =>
          show joinSep c [x :: y] = x :: xs
          simp only [joinSep] at ih ⊢
          rw [ih]
        | cons z zs =>
          show joinSep c ((x :: y) :: z :: zs) = x :: xs
          simp only [joinSep] at ih ⊢
          rw [List.cons_append, ih]

/-- No piece of a separator split contains the separator. -/
theorem splitOnChar_not_mem (c : Char) : ∀ l p, p ∈ splitOnChar c l → c ∉ p := by
  intro l
  induction l with
  | nil =>
    intro p hp
    simp [splitOnChar] at hp
    subst hp
    simp
  | cons x xs ih =>
    intro p hp
    by_cases hx : x = c
    · rw [splitOnChar_cons, if_pos hx] at hp
      rcases List.mem_cons.mp hp with rfl | hp
      · simp
      · exact ih p hp
    · rw [splitOnChar_cons, if_neg hx] at hp
      cases hr : splitOnChar c xs with
      | nil => exact absurd hr (splitOnChar_ne_nil c xs)
      | cons y ys =>
        rw [hr] at hp
        rcases List.mem_cons.mp hp with rfl | hp
        · intro hc
          rcases List.mem_cons.mp hc with rfl | hc
          · exact hx rfl
          · exact ih y (hr ▸ List.mem_cons_self y ys) hc
        · exact ih p (hr ▸ List.mem_cons_of_mem y hp)

/-- A split of a list without the separator is that single piece. -/
theorem splitOnChar_no (c : Char) : ∀ l, c ∉ l → splitOnChar c l = [l] := by
  intro l
  induction l with
  | nil => intro _; rfl
  | cons x xs ih =>
    intro h
    have hx : ¬ x = c := fun he => h (he ▸ List.mem_cons_self x xs)
    have hxs : c ∉ xs := fun hc => h (List.mem_cons_of_mem x hc)
    rw [splitOnChar_cons, if_neg hx, ih hxs]

/-- Splitting around an explicit separator occurrence. -/
theorem splitOnChar_append (c : Char) :
    ∀ a l, c ∉ a → splitOnChar c (a ++ c :: l) = a :: splitOnChar c l := by
  intro a
  induction a with
  | nil =>
    intro l _
    show splitOnChar c (c :: l) = [] :: splitOnChar c l
    rw [splitOnChar_cons, if_pos rfl]
  | cons x a' ih =>
    intro l h
    have hx : ¬ x = c := fun he => h (he ▸ List.mem_cons_self x a')
    have ha' : c ∉ a' := fun hc => h (List.mem_cons_of_mem x hc)
    show splitOnChar c (x :: (a' ++ c :: l)) = (x :: a') :: splitOnChar c l
    rw [splitOnChar_cons, if_neg hx, ih l ha']

/-- Characterization of a two-piece split. -/
theorem splitOnChar_pair (c : Char) (l a b : List Char) :
    splitOnChar c l = [a, b] ↔ (l = a ++ c :: b ∧ c ∉ a ∧ c ∉ b) := by
  constructor
  · intro h
    have hj := joinSep_splitOnChar c l
    rw [h] at hj
    refine ⟨?_, ?_, ?_⟩
    · rw [← hj]
      rfl
    · exact splitOnChar_not_mem c l a (h ▸ List.mem_cons_self a [b])
    · exact splitOnChar_not_mem c l b
        (h ▸ List.mem_cons_of_mem a (List.mem_cons_self b []))
  · rintro ⟨rfl, ha, hb⟩
    rw [splitOnChar_append c a b ha, splitOnChar_no c b hb]

/-- The colon is not a digit. -/
theorem colon_not_digit : (':' : Char).isDigit = false := by decide

/-- C10 counterexample: the string 7:30 is accepted by the `at`
validator although it is not of the claimed two-digit HH:MM shape. -/
theorem c10_counterexample :
    validate_at_format "7:30" = true ∧ specTwoDigitShape "7:30" = false := by
  decide

/-- C10 (amended): over strings of ASCII characters, the `at`
validator accepts exactly the strings made of a one or two digit hour
of value at most 23, a colon, and a one or two digit minute of value
at most 59.  The ASCII scope is part of the statement: CPython
compiles `%H:%M` without `re.ASCII`, so on arbitrary strings the
validator also accepts non-ASCII Unicode decimal digits, which are
outside this model. -/
theorem c10_at_validator_language (v : String)
    (_hascii : ∀ c ∈ v.data, c.toNat ≤ 127) :
    validate_at_format v = true ↔ amendedAtShape v := by
  unfold validate_at_format amendedAtShape
  constructor
  · intro h
    cases hs : splitOnChar ':' v.data with
    | nil => rw [hs] at h; cases h
    | cons p ps =>
      cases ps with
      | nil => rw [hs] at h; cases h
      | cons q qs =>
        cases qs with
        | cons r rs => rw [hs] at h; cases h
        | nil =>
          rw [hs] at h
          have hH : hourOK p = true := (Bool.and_eq_true _ _ |>.mp h).1
          have hM : minuteOK q = true := (Bool.and_eq_true _ _ |>.mp h).2
          obtain ⟨heq, -, -⟩ := (splitOnChar_pair ':' v.data p q).mp hs
          obtain ⟨hlp, hv, hdp, hvb⟩ := (hourOK_iff p).mp hH
          obtain ⟨hlq, mv, hdq, hmb⟩ := (minuteOK_iff q).mp hM
          exact ⟨p, q, heq, hlp, hlq, ⟨hv, hdp, hvb⟩, ⟨mv, hdq, hmb⟩⟩
  · rintro ⟨p, q, heq, hlp, hlq, ⟨hv, hdp, hvb⟩, ⟨mv, hdq, hmb⟩⟩
    have hnp : ':' ∉ p := fun hc => by
      have := decNat?_digits p hv hdp ':' hc
      rw [colon_not_digit] at this
      cases this
    have hnq : ':' ∉ q := fun hc => by
      have := decNat?_digits q mv hdq ':' hc
      rw [colon_not_digit] at this
      cases this
    have hs : splitOnChar ':' v.data = [p, q] :=
      (splitOnChar_pair ':' v.data p q).mpr ⟨heq, hnp, hnq⟩
    rw [hs]
    have hH : hourOK p = true := (hourOK_iff p).mpr ⟨hlp, hv, hdp, hvb⟩
    have hM : minuteOK q = true := (minuteOK_iff q).mpr ⟨hlq, mv, hdq, hmb⟩
    show (hourOK p && minuteOK q) = true
    rw [hH, hM]
    rfl

/-- C10 witness. -/
theorem c10_witness :
    (∀ c ∈ ("07:05" : String).data, c.toNat ≤ 127) ∧
      (validate_at_format "07:05" = true ↔ amendedAtShape "07:05") :=
  ⟨by decide, c10_at_validator_language "07:05" (by decide)⟩

/-- A validated `at` string parses to an in-range hour and minute. -/
theorem validate_parse_bounds (s : String) (hh mm : Nat)
    (hval : validate_at_format s = true) (hparse : parseAt s = some (hh, mm)) :
    hh ≤ 23 ∧ mm ≤ 59 := by
  unfold validate_at_format at hval
  unfold parseAt at hparse
  cases hs : splitOnChar ':' s.data with
  | nil => rw [hs] at hval; cases hval
  | cons p ps =>
    cases ps with
    | nil => rw [hs] at hval; cases hval
    | cons q qs =>
      cases qs with
      | cons r rs => rw [hs] at hval; cases hval
      | nil =>
        rw [hs] at hval hparse
        have hH : hourOK p = true := (Bool.and_eq_true _ _ |>.mp hval).1
        have hM : minuteOK q = true := (Bool.and_eq_true _ _ |>.mp hval).2
        obtain ⟨-, hv, hdp, hvb⟩ := (hourOK_iff p).mp hH
        obtain ⟨-, mv, hdq, hmb⟩ := (minuteOK_iff q).mp hM
        have hp2 : (match decNat? p, decNat? q with
            | some a, some b => some (a, b)
            | _, _ => none) = some (hh, mm) := hparse
        rw [hdp, hdq] at hp2
        have hp3 : some (hv, mv) = some (hh, mm) := hp2
        cases hp3
        exact ⟨hvb, hmb⟩

/-- C4: a daily task with a validated HH:MM is eligible exactly when
the instant on the current date at that wall-clock time has been
reached and no attempt has been stamped on the current date; an
attempt stamped today makes it ineligible for the rest of the day. -/
theorem c4_daily_at (t : Task) (now : Nat) (s : String) (hh mm : Nat)
    (h1 : t.run_at = none) (h2 : t.«at» = some s)
    (hval : validate_at_format s = true) (hparse : parseAt s = some (hh, mm)) :
    (should_run t now = some true ↔
      (replaceHM now hh mm ≤ now ∧
        ¬ ∃ lr, t.last_run_at = some lr ∧ dateOf lr = dateOf now)) ∧
    (∀ lr, t.last_run_at = some lr → dateOf lr = dateOf now →
      should_run t now = some false) := by
  obtain ⟨hhb, hmb⟩ := validate_parse_bounds s hh mm hval hparse
  unfold should_run
  rw [h1, h2]
  simp only [hparse]
  rw [if_neg (by omega)]
  constructor
  · cases hl : t.last_run_at with
    | none => simp [hl]
    | some lr =>
      by_cases hd : dateOf lr = dateOf now <;> simp [hl, hd]
  · intro lr hl hd
    simp [hl, hd]

/-- C4 witness. -/
theorem c4_witness :
    wTaskAt.run_at = none ∧ wTaskAt.«at» = some "07:30" ∧
      validate_at_format "07:30" = true ∧ parseAt "07:30" = some (7, 30) ∧
      ((should_run wTaskAt 1000000000000 = some true ↔
        (replaceHM 1000000000000 7 30 ≤ 1000000000000 ∧
          ¬ ∃ lr, wTaskAt.last_run_at = some lr ∧ dateOf lr = dateOf 1000000000000)) ∧
      (∀ lr, wTaskAt.last_run_at = some lr → dateOf lr = dateOf 1000000000000 →
        should_run wTaskAt 1000000000000 = some false)) :=
  ⟨rfl, rfl, by decide, by decide,
    c4_daily_at wTaskAt 1000000000000 "07:30" 7 30 rfl rfl (by decide) (by decide)⟩

/-- C9: the code evaluated at the failing input.  Deleting a present
id removes the task and deleting again is a no-op, but the call
returns the Python value None, never a boolean, so the claimed boolean
return value does not exist: the last conjunct shows that every call
returns `PyObj.none`. -/
theorem c9_delete_returns_none :
    (wReg9.delete "one").2 = PyObj.none ∧
    (∀ b : Bool, (wReg9.delete "one").2 ≠ PyObj.bool b) ∧
    idsOf (wReg9.delete "one").1.store = [] ∧
    ((wReg9.delete "one").1.delete "one") = ((wReg9.delete "one").1, PyObj.none) ∧
    (∀ (r : TaskRegistry) (i : String), (r.delete i).2 = PyObj.none) := by
  refine ⟨rfl, ?_, rfl, rfl, ?_⟩
  · intro b hb
    cases hb
  · intro r i
    unfold TaskRegistry.delete
    split <;> rfl

/-- A task found by id carries that id. -/
theorem findTask_id : ∀ (s : List Task) (i : String) (t : Task),
    findTask s i = some t → t.id = i := by
  intro s
  induction s with
  | nil => intro i t h; cases h
  | cons x xs ih =>
    intro i t h
    unfold findTask at h
    split at h
    · rename_i hc
      cases h
      exact hc
    · exact ih i t h

/-- A task found by id is an element of the store. -/
theorem findTask_mem : ∀ (s : List Task) (i : String) (t : Task),
    findTask s i = some t → t ∈ s := by
  intro s
  induction s with
  | nil => intro i t h; cases h
  | cons x xs ih =>
    intro i t h
    unfold findTask at h
    split at h
    · cases h
      exact List.mem_cons_self x xs
    · exact List.mem_cons_of_mem x (ih i t h)

/-- A present key has a stored task. -/
theorem mem_idsOf_findTask : ∀ (s : List Task) (i : String),
    i ∈ idsOf s → ∃ t, findTask s i = some t := by
  intro s
  induction s with
  | nil => intro i h; cases h
  | cons x xs ih =>
    intro i h
    by_cases hx : x.id = i
    · exact ⟨x, by unfold findTask; rw [if_pos hx]⟩
    · have : i ∈ idsOf xs := by
        rcases List.mem_cons.mp h with he | hm
        · exact absurd he.symm hx
        · exact hm
      obtain ⟨t, ht⟩ := ih i this
      exact ⟨t, by unfold findTask; rw [if_neg hx]; exact ht⟩

/-- A found key is present in the key list. -/
theorem findTask_mem_idsOf : ∀ (s : List Task) (i : String) (t : Task),
    findTask s i = some t → i ∈ idsOf s := by
  intro s
  induction s with
  | nil => intro i t h; cases h
  | cons x xs ih =>
    intro i t h
    unfold findTask at h
    split at h
    · rename_i hc
      exact hc ▸ List.mem_cons_self x.id (idsOf xs)
    · exact List.mem_cons_of_mem x.id (ih i t h)

/-- Looking up the replaced key finds the replacement. -/
theorem findTask_updateById_self :
    ∀ (s : List Task) (i : String) (t t2 : Task),
    findTask s i = some t → t2.id = i →
    findTask (updateById s i t2) i = some t2 := by
  intro s
  induction s with
  | nil => intro i t t2 h _; cases h
  | cons x xs ih =>
    intro i t t2 h hid
    by_cases hx : x.id = i
    · unfold updateById
      rw [if_pos hx]
      unfold findTask
      rw [if_pos hid]
    · unfold updateById
      rw [if_neg hx]
      unfold findTask
      rw [if_neg hx]
      unfold findTask at h
      rw [if_neg hx] at h
      exact ih i t t2 h hid

/-- Looking up a different key is unaffected by a replacement. -/
theorem findTask_updateById_other :
    ∀ (s : List Task) (i j : String) (t2 : Task),
    j ≠ i → t2.id = i →
    findTask (updateById s i t2) j = findTask s j := by
  intro s
  induction s with
  | nil => intro i j t2 _ _; rfl
  | cons x xs ih =>
    intro i j t2 hne hid
    by_cases hx : x.id = i
    · unfold updateById
      rw [if_pos hx]
      unfold findTask
      rw [if_neg (by rw [hid]; exact fun he => hne he.symm),
        if_neg (by rw [hx]; exact fun he => hne he.symm)]
    · unfold updateById
      rw [if_neg hx]
      unfold findTask
      by_cases hj : x.id = j
      · rw [if_pos hj, if_pos hj]
      · rw [if_neg hj, if_neg hj]
        exact ih i j t2 hne hid

/-- Replacing a task by one with the replaced id keeps the key list. -/
theorem idsOf_updateById :
    ∀ (s : List Task) (i : String) (t2 : Task), t2.id = i →
    idsOf (updateById s i t2) = idsOf s := by
  intro s
  induction s with
  | nil => intro i t2 _; rfl
  | cons x xs ih =>
    intro i t2 hid
    by_cases hx : x.id = i
    · unfold updateById
      rw [if_pos hx]
      show t2.id :: idsOf xs = x.id :: idsOf xs
      rw [hid, hx]
    · unfold updateById
      rw [if_neg hx]
      show x.id :: idsOf (updateById xs i t2) = x.id :: idsOf xs
      rw [ih i t2 hid]

/-- A replacement that keeps `last_success_at` keeps the pointwise
success timestamps of all lookups. -/
theorem lastSuccess_updateById (s : List Task) (i : String) (t t2 : Task)
    (hf : findTask s i = some t) (hid : t2.id = i)
    (hls : t2.last_success_at = t.last_success_at) :
    ∀ j, (findTask (updateById s i t2) j).map Task.last_success_at =
      (findTask s j).map Task.last_success_at := by
  intro j
  by_cases hj : j = i
  · subst hj
    rw [findTask_updateById_self s j t t2 hf hid, hf]
    simp [hls]
  · rw [findTask_updateById_other s i j t2 hj hid]

/-- The dependency gate reads only existence and `last_success_at` of
the stored tasks, so it is stable under such pointwise agreement. -/
theorem deps_ready_eq_of_lastSuccess (s1 s2 : List Task) (t : Task)
    (h : ∀ j, (findTask s1 j).map Task.last_success_at =
      (findTask s2 j).map Task.last_success_at) :
    deps_ready s1 t = deps_ready s2 t := by
  unfold deps_ready
  generalize t.depends_on = l
  induction l with
  | nil => rfl
  | cons d ds ih =>
    have hd := h d
    rw [List.all_cons, List.all_cons, ih]
    congr 1
    cases hf1 : findTask s1 d with
    | none =>
      cases hf2 : findTask s2 d with
      | none => rfl
      | some dt2 => rw [hf1, hf2] at hd; simp at hd
    | some dt1 =>
      cases hf2 : findTask s2 d with
      | none => rw [hf1, hf2] at hd; simp at hd
      | some dt2 =>
        rw [hf1, hf2] at hd
        simp at hd
        show dt1.last_success_at.isSome = dt2.last_success_at.isSome
        rw [hd]

/-- The dependency gate reads only the dependency list of the task
itself. -/
theorem deps_ready_same_depends (s : List Task) (t2 t : Task)
    (h : t2.depends_on = t.depends_on) : deps_ready s t2 = deps_ready s t := by
  unfold deps_ready
  rw [h]

/-- The dependency gate passes exactly when every dependency id names
a stored task that has succeeded at least once. -/
theorem deps_ready_iff (s : List Task) (u : Task) :
    deps_ready s u = true ↔
      ∀ d ∈ u.depends_on, ∃ dt, findTask s d = some dt ∧
        dt.last_success_at.isSome = true := by
  unfold deps_ready
  rw [List.all_eq_true]
  constructor
  · intro h d hd
    have hp := h d hd
    cases hf : findTask s d with
    | none => rw [hf] at hp; cases hp
    | some dt =>
      rw [hf] at hp
      exact ⟨dt, rfl, hp⟩
  · intro h d hd
    obtain ⟨dt, hdt, hs⟩ := h d hd
    rw [hdt]
    exact hs

/-- Try/except outcome on a normal return. -/
theorem applyOutcome_ok (t : Task) (kw : KwArgs) (ctv : Nat) (v : PyObj)
    (h : callFunc t kw = Except.ok v) :
    applyOutcome t kw ctv =
      { t with
        result := v
        status := .success
        last_success_at := some ctv
        error_message := none } := by
  unfold applyOutcome
  rw [h]

/-- Try/except outcome on a raise. -/
theorem applyOutcome_error (t : Task) (kw : KwArgs) (ctv : Nat) (e : PyExc)
    (h : callFunc t kw = Except.error e) :
    applyOutcome t kw ctv =
      { t with status := .failed, error_message := some (excDesc e) } := by
  unfold applyOutcome
  rw [h]

/-- Execution never changes the task id. -/
theorem execute_task_logic_id (t : Task) (kw : KwArgs) (rt ctv : Nat) :
    (execute_task_logic t kw rt ctv).id = t.id := by
  show (applyOutcome t kw ctv).id = t.id
  cases h : callFunc t kw with
  | ok v => rw [applyOutcome_ok t kw ctv v h]
  | error e => rw [applyOutcome_error t kw ctv e h]

/-- The full state left by an execution whose work returned. -/
theorem execute_ok (t : Task) (kw : KwArgs) (rt ctv : Nat) (v : PyObj)
    (h : callFunc t kw = Except.ok v) :
    execute_task_logic t kw rt ctv =
      { t with
        result := v
        status := .success
        last_success_at := some ctv
        error_message := none
        history := t.history ++
          [{ run_at := rt, status := .success, result := some (pyRepr v), error := none }] } := by
  unfold execute_task_logic
  rw [applyOutcome_ok t kw ctv v h]
  rfl

/-- The full state left by an execution whose work raised. -/
theorem execute_failed (t : Task) (kw : KwArgs) (rt ctv : Nat) (e : PyExc)
    (h : callFunc t kw = Except.error e) :
    execute_task_logic t kw rt ctv =
      { t with
        status := .failed
        error_message := some (excDesc e)
        history := t.history ++
          [{ run_at := rt, status := .failed, result := none, error := some (excDesc e) }] } := by
  unfold execute_task_logic
  rw [applyOutcome_error t kw ctv e h]
  rfl

/-- What one phase-1 iteration does: it preserves the key list and
the success timestamps of the store, and any item it queues was gated
by `_deps_ready` against the current store, was stamped with the
snapshot time, and sits under the processed key. -/
theorem tickStep_spec (now : Nat) (store : List Task) (x : String)
    (store1 : List Task) (oitem : Option QItem)
    (h : tickStep now store x = some (store1, oitem)) :
    (∀ j, (findTask store1 j).map Task.last_success_at =
      (findTask store j).map Task.last_success_at) ∧
    idsOf store1 = idsOf store ∧
    (∀ item, oitem = some item → deps_ready store item.task = true ∧
      item.run_time = now ∧ item.task.id = x ∧ x ∈ idsOf store) := by
  unfold tickStep at h
  cases hf : findTask store x with
  | none =>
    rw [hf] at h
    have h2 : some (store, (none : Option QItem)) = some (store1, oitem) := h
    injection h2 with h3
    injection h3 with h4 h5
    subst h4
    subst h5
    exact ⟨fun j => rfl, rfl, fun item hi => Option.noConfusion hi⟩
  | some task =>
    rw [hf] at h
    have hidx : task.id = x := findTask_id store x task hf
    by_cases hrun : task.status = TaskStatus.running
    · have h2 : some (store, (none : Option QItem)) = some (store1, oitem) := by
        rw [← h]
        show _ = (if task.status = TaskStatus.running then some (store, none) else _)
        rw [if_pos hrun]
      injection h2 with h3
      injection h3 with h4 h5
      subst h4
      subst h5
      exact ⟨fun j => rfl, rfl, fun item hi => Option.noConfusion hi⟩
    · have h2 : (match should_run task now with
        | none => none
        | some cond =>
          if cond && deps_ready store task then
            match collectDeps store task.depends_on with
            | .ok dep_kwargs =>
              some (updateById store x (markRunning task now),
                some ⟨markRunning task now, dep_kwargs, now⟩)
            | .error dep_id =>
              some (updateById store x (markDepFailed task now dep_id), none)
          else some (store, none)) = some (store1, oitem) := by
        rw [← h]
        show _ = (if task.status = TaskStatus.running then some (store, none) else _)
        rw [if_neg hrun]
      cases hsr : should_run task now with
      | none => rw [hsr] at h2; cases h2
      | some cond =>
        rw [hsr] at h2
        have h3 : (if cond && deps_ready store task then
            match collectDeps store task.depends_on with
            | .ok dep_kwargs =>
              some (updateById store x (markRunning task now),
                some ⟨markRunning task now, dep_kwargs, now⟩)
            | .error dep_id =>
              some (updateById store x (markDepFailed task now dep_id), none)
          else some (store, none)) = some (store1, oitem) := h2
        by_cases hc : (cond && deps_ready store task) = true
        · rw [if_pos hc] at h3
          cases hcd : collectDeps store task.depends_on with
          | ok kw =>
            rw [hcd] at h3
            have h4 : some (updateById store x (markRunning task now),
                some (⟨markRunning task now, kw, now⟩ : QItem)) = some (store1, oitem) := h3
            injection h4 with h5
            injection h5 with h6 h7
            subst h6
            subst h7
            have hid2 : (markRunning task now).id = x := hidx
            refine ⟨lastSuccess_updateById store x task _ hf hid2 rfl,
              idsOf_updateById store x _ hid2, ?_⟩
            intro item hi
            injection hi with hi2
            subst hi2
            refine ⟨?_, rfl, hid2, findTask_mem_idsOf store x task hf⟩
            rw [deps_ready_same_depends store (markRunning task now) task rfl]
            exact (Bool.and_eq_true _ _ |>.mp hc).2
          | error dep_id =>
            rw [hcd] at h3
            have h4 : some (updateById store x (markDepFailed task now dep_id),
                (none : Option QItem)) = some (store1, oitem) := h3
            injection h4 with h5
            injection h5 with h6 h7
            subst h6
            subst h7
            have hid2 : (markDepFailed task now dep_id).id = x := hidx
            exact ⟨lastSuccess_updateById store x task _ hf hid2 rfl,
              idsOf_updateById store x _ hid2, fun item hi => Option.noConfusion hi⟩
        · rw [if_neg hc] at h3
          have h4 : some (store, (none : Option QItem)) = some (store1, oitem) := h3
          injection h4 with h5
          injection h5 with h6 h7
          subst h6
          subst h7
          exact ⟨fun j => rfl, rfl, fun item hi => Option.noConfusion hi⟩

/-- What phase 1 guarantees: the key list and the success timestamps
of the store are unchanged, the queued ids form a sublist of the
processed keys, and every queued item passed the dependency gate
against the entry store, carries the snapshot time, and names a
present key. -/
theorem tickPhase1_spec (now : Nat) :
    ∀ (ids : List String) (store store1 : List Task) (queue : List QItem),
    tickPhase1 now ids store = some (store1, queue) →
    ((∀ j, (findTask store1 j).map Task.last_success_at =
        (findTask store j).map Task.last_success_at) ∧
      idsOf store1 = idsOf store ∧
      (queue.map fun q => q.task.id).Sublist ids ∧
      (∀ q ∈ queue, deps_ready store q.task = true ∧ q.run_time = now ∧
        q.task.id ∈ idsOf store)) := by
  intro ids
  induction ids with
  | nil =>
    intro store store1 queue h
    have h2 : some (store, ([] : List QItem)) = some (store1, queue) := h
    injection h2 with h3
    injection h3 with h4 h5
    subst h4
    subst h5
    exact ⟨fun j => rfl, rfl, List.nil_sublist [], fun q hq => absurd hq (List.not_mem_nil q)⟩
  | cons x rest ih =>
    intro store store1 queue h
    unfold tickPhase1 at h
    cases hstep : tickStep now store x with
    | none =>
      rw [hstep] at h
      exact Option.noConfusion h
    | some p =>
      obtain ⟨store2, oitem⟩ := p
      rw [hstep] at h
      obtain ⟨s1, s2, s3⟩ := tickStep_spec now store x store2 oitem hstep
      have hdq : ∀ (queue2 : List QItem),
          tickPhase1 now rest store2 = some (store1, queue2) →
          ∀ q ∈ queue2, deps_ready store q.task = true ∧
            q.run_time = now ∧ q.task.id ∈ idsOf store := by
        intro queue2 hrec q hq
        obtain ⟨-, -, -, i4⟩ := ih store2 store1 queue2 hrec
        obtain ⟨d1, d2, d3⟩ := i4 q hq
        refine ⟨?_, d2, ?_⟩
        · rw [← deps_ready_eq_of_lastSuccess store2 store q.task s1]
          exact d1
        · rw [← s2]
          exact d3
      cases oitem with
      | none =>
        have h2 : (match tickPhase1 now rest store2 with
          | none => none
          | some (store3, queue2) => some (store3, queue2)) = some (store1, queue) := h
        cases hrec : tickPhase1 now rest store2 with
        | none =>
          rw [hrec] at h2
          exact Option.noConfusion h2
        | some p2 =>
          obtain ⟨store3, queue2⟩ := p2
          rw [hrec] at h2
          have h3 : some (store3, queue2) = some (store1, queue) := h2
          injection h3 with h4
          injection h4 with h5 h6
          subst h5
          subst h6
          obtain ⟨i1, i2, i3, -⟩ := ih store2 _ _ hrec
          exact ⟨fun j => (i1 j).trans (s1 j), i2.trans s2,
            List.Sublist.cons x i3, hdq _ hrec⟩
      | some item =>
        have h2 : (match tickPhase1 now rest store2 with
          | none => none
          | some (store3, queue2) => some (store3, item :: queue2)) = some (store1, queue) := h
        cases hrec : tickPhase1 now rest store2 with
        | none =>
          rw [hrec] at h2
          exact Option.noConfusion h2
        | some p2 =>
          obtain ⟨store3, queue2⟩ := p2
          rw [hrec] at h2
          have h3 : some (store3, item :: queue2) = some (store1, queue) := h2
          injection h3 with h4
          injection h4 with h5 h6
          subst h5
          subst h6
          obtain ⟨i1, i2, i3, -⟩ := ih store2 _ queue2 hrec
          obtain ⟨q1, q2, q3, q4⟩ := s3 item rfl
          refine ⟨fun j => (i1 j).trans (s1 j), i2.trans s2, ?_, ?_⟩
          · show (item.task.id :: queue2.map fun q => q.task.id).Sublist (x :: rest)
            rw [q3]
            exact i3.cons₂ x
          · intro q hq
            rcases List.mem_cons.mp hq with rfl | hq
            · exact ⟨q1, q2, q3 ▸ q4⟩
            · exact hdq queue2 hrec q hq

/-- Phase 2 leaves keys outside the queue alone. -/
theorem tickPhase2_preserve (ct : String → Nat) :
    ∀ (queue : List QItem) (store : List Task) (i : String),
    (∀ q ∈ queue, q.task.id ≠ i) →
    findTask (tickPhase2 ct store queue) i = findTask store i := by
  intro queue
  induction queue with
  | nil => intro store i _; rfl
  | cons q0 rest ih =>
    intro store i hne
    have hstep : tickPhase2 ct store (q0 :: rest) =
        tickPhase2 ct (updateById store q0.task.id
          (execute_task_logic q0.task q0.dep_kwargs q0.run_time (ct q0.task.id))) rest := rfl
    rw [hstep, ih _ i (fun q hq => hne q (List.mem_cons_of_mem q0 hq))]
    exact findTask_updateById_other store q0.task.id i _
      (fun he => hne q0 (List.mem_cons_self q0 rest) he.symm)
      (execute_task_logic_id q0.task q0.dep_kwargs q0.run_time (ct q0.task.id))

/-- Phase 2 executes every queued task: afterwards the stored task
under a queued id is exactly the result of `_execute_task_logic` on
the queued snapshot, independent of the other queued tasks. -/
theorem tickPhase2_lookup (ct : String → Nat) :
    ∀ (queue : List QItem) (store : List Task),
    (queue.map fun q => q.task.id).Nodup →
    (∀ q ∈ queue, q.task.id ∈ idsOf store) →
    ∀ q ∈ queue, findTask (tickPhase2 ct store queue) q.task.id =
      some (execute_task_logic q.task q.dep_kwargs q.run_time (ct q.task.id)) := by
  intro queue
  induction queue with
  | nil => intro store _ _ q hq; cases hq
  | cons q0 rest ih =>
    intro store hnd hmem q hq
    have hid0 : (execute_task_logic q0.task q0.dep_kwargs q0.run_time (ct q0.task.id)).id =
        q0.task.id := execute_task_logic_id q0.task q0.dep_kwargs q0.run_time (ct q0.task.id)
    have hstep : tickPhase2 ct store (q0 :: rest) =
        tickPhase2 ct (updateById store q0.task.id
          (execute_task_logic q0.task q0.dep_kwargs q0.run_time (ct q0.task.id))) rest := rfl
    have hnotin : q0.task.id ∉ rest.map fun q => q.task.id :=
      (List.nodup_cons.mp hnd).1
    rcases List.mem_cons.mp hq with rfl | hq
    · rw [hstep, tickPhase2_preserve ct rest _ q.task.id ?hne]
      case hne =>
        intro q2 hq2 he
        exact hnotin (he ▸ List.mem_map_of_mem (fun q => q.task.id) hq2)
      obtain ⟨t0, ht0⟩ := mem_idsOf_findTask store q.task.id
        (hmem q (List.mem_cons_self q rest))
      exact findTask_updateById_self store q.task.id t0 _ ht0 hid0
    · rw [hstep]
      apply ih _ (List.nodup_cons.mp hnd).2 ?hmem2 q hq
      case hmem2 =>
        intro q2 hq2
        rw [idsOf_updateById store q0.task.id _ hid0]
        exact hmem q2 (List.mem_cons_of_mem q0 hq2)

/-- C1 witness. -/
theorem c1_witness :
    wRegEmpty.register wTaskOne =
      ({ store := wRegEmpty.store ++ [wTaskOne] }, Except.ok wTaskOne) :=
  (c1_register wRegEmpty wTaskOne).1.mpr ⟨by decide, rfl⟩

/-- C5: the dependency gate passes exactly when every id in
`depends_on` names a stored task with a non-null `last_success_at`,
and every task queued for execution by a tick passed that gate against
the starting store: a missing or never-succeeded dependency keeps a
task out of every tick. -/
theorem c5_dependency_gate (reg : TaskRegistry) (t : Task) :
    (deps_ready reg.store t = true ↔
      ∀ d ∈ t.depends_on, ∃ dt, findTask reg.store d = some dt ∧
        dt.last_success_at.isSome = true) ∧
    (∀ now store1 queue,
      tickPhase1 now (idsOf reg.store) reg.store = some (store1, queue) →
      ∀ q ∈ queue, ∀ d ∈ q.task.depends_on,
        ∃ dt, findTask reg.store d = some dt ∧ dt.last_success_at.isSome = true) := by
  refine ⟨deps_ready_iff reg.store t, ?_⟩
  intro now store1 queue hp q hq d hd
  obtain ⟨-, -, -, h4⟩ := tickPhase1_spec now (idsOf reg.store) reg.store store1 queue hp
  exact (deps_ready_iff reg.store q.task).mp (h4 q hq).1 d hd

/-- C5 witness. -/
theorem c5_witness :
    deps_ready wReg57.store wTaskB = true ↔
      ∀ d ∈ wTaskB.depends_on, ∃ dt, findTask wReg57.store d = some dt ∧
        dt.last_success_at.isSome = true :=
  (c5_dependency_gate wReg57 wTaskB).1

/-- C6: an executed task ends Success with the returned value, a
cleared error and `last_success_at` stamped with the completion-time
clock reading when the work returns, and ends Failed with a textual
error and an untouched result when the work raises; either way exactly
one history entry is appended, carrying the phase-1 snapshot time (the
time every queued item is stamped with), the final status, a result
only on Success and an error only on Failed. -/
theorem c6_execution_effects (t : Task) (kw : KwArgs) (rt ctv : Nat) :
    (∀ v, callFunc t kw = Except.ok v →
      (execute_task_logic t kw rt ctv).status = TaskStatus.success ∧
      (execute_task_logic t kw rt ctv).result = v ∧
      (execute_task_logic t kw rt ctv).error_message = none ∧
      (execute_task_logic t kw rt ctv).last_success_at = some ctv) ∧
    (∀ e, callFunc t kw = Except.error e →
      (execute_task_logic t kw rt ctv).status = TaskStatus.failed ∧
      (execute_task_logic t kw rt ctv).error_message = some (excDesc e) ∧
      (execute_task_logic t kw rt ctv).result = t.result ∧
      (execute_task_logic t kw rt ctv).last_success_at = t.last_success_at) ∧
    (∃ entry, (execute_task_logic t kw rt ctv).history = t.history ++ [entry] ∧
      entry.run_at = rt ∧ entry.status = (execute_task_logic t kw rt ctv).status ∧
      (entry.result.isSome = true ↔ entry.status = TaskStatus.success) ∧
      (entry.error.isSome = true ↔ entry.status = TaskStatus.failed)) ∧
    (∀ ids store store1 queue, tickPhase1 rt ids store = some (store1, queue) →
      ∀ q ∈ queue, q.run_time = rt) := by
  refine ⟨?_, ?_, ?_, ?_⟩
  · intro v hv
    rw [execute_ok t kw rt ctv v hv]
    exact ⟨rfl, rfl, rfl, rfl⟩
  · intro e he
    rw [execute_failed t kw rt ctv e he]
    exact ⟨rfl, rfl, rfl, rfl⟩
  · cases hc : callFunc t kw with
    | ok v =>
      rw [execute_ok t kw rt ctv v hc]
      exact ⟨⟨rt, .success, some (pyRepr v), none⟩, rfl, rfl, rfl, by simp, by simp⟩
    | error e =>
      rw [execute_failed t kw rt ctv e hc]
      exact ⟨⟨rt, .failed, none, some (excDesc e)⟩, rfl, rfl, rfl, by simp, by simp⟩
  · intro ids store store1 queue hp q hq
    exact ((tickPhase1_spec rt ids store store1 queue hp).2.2.2 q hq).2.1

/-- C6 witness. -/
theorem c6_witness :
    callFunc wTask6 [] = Except.ok (PyObj.int 42) ∧
      (execute_task_logic wTask6 [] 7 9).status = TaskStatus.success ∧
      (execute_task_logic wTask6 [] 7 9).last_success_at = some 9 :=
  ⟨rfl, ((c6_execution_effects wTask6 [] 7 9).1 (PyObj.int 42) rfl).1,
    ((c6_execution_effects wTask6 [] 7 9).1 (PyObj.int 42) rfl).2.2.2⟩

/-- C7: exceptions raised by work functions never propagate out of a
tick and never touch sibling tasks.  Work functions run only in phase
2: `tickStep` and `tickPhase1` contain no occurrence of `callFunc`, so
the phase-1 hypothesis is decided before any work runs and does not
depend on the work functions (phase 1 itself can raise only from
`_should_run`, a configuration matter, not a work-function error).
Given the phase-1 selection, the tick always completes: every queued
task, arbitrary raising work included, ends in exactly the state
`_execute_task_logic` computes from its own outcome, and a raising
work function only marks its own task Failed, with the textual
description and one history entry, while every other queued task is
still executed and recorded. -/
theorem c7_tick_isolates_failures (reg : TaskRegistry) (now : Nat) (ct : String → Nat)
    (store1 : List Task) (queue : List QItem)
    (hp1 : tickPhase1 now (idsOf reg.store) reg.store = some (store1, queue))
    (hnd : (idsOf reg.store).Nodup) :
    reg.tick now ct = some ⟨tickPhase2 ct store1 queue⟩ ∧
    (∀ q ∈ queue, findTask (tickPhase2 ct store1 queue) q.task.id =
      some (execute_task_logic q.task q.dep_kwargs q.run_time (ct q.task.id))) ∧
    (∀ q ∈ queue, ∀ e, callFunc q.task q.dep_kwargs = Except.error e →
      ∃ t2, findTask (tickPhase2 ct store1 queue) q.task.id = some t2 ∧
        t2.status = TaskStatus.failed ∧ t2.error_message = some (excDesc e) ∧
        t2.history = q.task.history ++
          [{ run_at := q.run_time, status := TaskStatus.failed, result := none,
             error := some (excDesc e) }]) := by
  obtain ⟨hls, hids, hsub, hqs⟩ := tickPhase1_spec now _ _ _ _ hp1
  have hqnd : (queue.map fun q => q.task.id).Nodup := List.Nodup.sublist hsub hnd
  have hqmem : ∀ q ∈ queue, q.task.id ∈ idsOf store1 := by
    intro q hq
    rw [hids]
    exact (hqs q hq).2.2
  have hlk := tickPhase2_lookup ct queue store1 hqnd hqmem
  refine ⟨?_, hlk, ?_⟩
  · unfold TaskRegistry.tick
    rw [hp1]
  · intro q hq e he
    refine ⟨execute_task_logic q.task q.dep_kwargs q.run_time (ct q.task.id),
      hlk q hq, ?_, ?_, ?_⟩
    · rw [execute_failed q.task q.dep_kwargs q.run_time (ct q.task.id) e he]
    · rw [execute_failed q.task q.dep_kwargs q.run_time (ct q.task.id) e he]
    · rw [execute_failed q.task q.dep_kwargs q.run_time (ct q.task.id) e he]

/-- C7 witness: the concrete registry queues a succeeding and a
raising task, and the tick still completes. -/
theorem c7_witness : (wReg57.tick 100 wct).isSome = true := by
  have h := c7_tick_isolates_failures wReg57 100 wct w7res.1 w7res.2 rfl (by decide)
  rw [h.1]
  rfl

/-- C8: with exactly one schedule option on the replacement, update
replaces only the tags, the schedule fields and the work fields of the
stored task with the same id, keeps every runtime field, and leaves
every other stored task alone; with zero or several schedule options
it raises and changes nothing. -/
theorem c8_update_frame (reg : TaskRegistry) (u t : Task)
    (h : findTask reg.store u.id = some t) :
    (schedCount u = 1 →
      (reg.update u).2 = Except.ok () ∧
      (∃ t2, findTask (reg.update u).1.store u.id = some t2 ∧
        t2.tags = u.tags ∧ t2.every = u.every ∧ t2.«at» = u.«at» ∧
        t2.run_at = u.run_at ∧ t2.func = u.func ∧ t2.args = u.args ∧
        t2.kwargs = u.kwargs ∧ t2.depends_on = u.depends_on ∧
        t2.id = t.id ∧ t2.status = t.status ∧ t2.last_run_at = t.last_run_at ∧
        t2.last_success_at = t.last_success_at ∧ t2.result = t.result ∧
        t2.error_message = t.error_message ∧ t2.history = t.history) ∧
      (∀ j, j ≠ u.id → findTask (reg.update u).1.store j = findTask reg.store j)) ∧
    (schedCount u ≠ 1 →
      (reg.update u).1 = reg ∧ ∃ m, (reg.update u).2 = Except.error m) := by
  constructor
  · intro hs
    have hred : reg.update u =
        ({ store := updateById reg.store u.id (t.update u) }, Except.ok ()) := by
      unfold TaskRegistry.update
      rw [if_neg (by simp [hs]), h]
    rw [hred]
    have hid : (t.update u).id = u.id := findTask_id reg.store u.id t h
    refine ⟨rfl, ⟨t.update u, ?_, ?_⟩, ?_⟩
    · exact findTask_updateById_self reg.store u.id t (t.update u) h hid
    · exact ⟨rfl, rfl, rfl, rfl, rfl, rfl, rfl, rfl, rfl, rfl, rfl, rfl, rfl, rfl, rfl⟩
    · intro j hj
      exact findTask_updateById_other reg.store u.id j (t.update u) hj hid
  · intro hs
    have hred : reg.update u = (reg, Except.error
        "Task must specify exactly one of every / at / run_at schedule options") := by
      unfold TaskRegistry.update
      rw [if_pos hs]
    rw [hred]
    exact ⟨rfl, _, rfl⟩

/-- C8 witness. -/
theorem c8_witness :
    schedCount wRepl = 1 ∧ (wReg8.update wRepl).2 = Except.ok () :=
  ⟨by decide, ((c8_update_frame wReg8 wRepl wStored rfl).1 (by decide)).1⟩

end EstAlan
